import Mathlib

/-!
# HexAuth — verification of the application-authentication / license-lifecycle core

Shallow embedding of the HexAUTH backend (Django, `src/apps/...`) in Lean 4.
Time is modelled as `Int` seconds, database tables as lists of records, and
Python exceptions as `Except String` / `Option` results.  External library
primitives which the repository merely calls (`hashlib.sha256`, the AES block
permutation from `cryptography.hazmat`, `secrets.choice`, the VPN lookup)
are taken as parameters of the embedded functions; everything the repository
itself computes (padding, CBC chaining, hex codec, UTF-8 codec semantics of
`str.encode`/`bytes.decode`, state transitions) is defined concretely below.
-/

namespace HexAuth

/-- Python truthiness of an optional string: `None` and `""` are falsy. -/
def pyTruthyStr : Option String → Bool
  | none => false
  | some s => !s.isEmpty

/-- Python truthiness of an optional duration: `None` and `timedelta(0)` are falsy. -/
def pyTruthyDur : Option Int → Bool
  | none => false
  | some d => d != 0

/-! ## UTF-8 codec

Semantics of Python `str.encode()` / `bytes.decode()` (strict UTF-8), which
`encrypt_data` and `decrypt_data` in `src/apps/api/utils.py` rely on.  Code
points are `Nat`, bytes are `Nat` below 256. -/

/-- UTF-8 encoding of a single code point (the `str.encode` semantics). -/
def utf8EncodeCp (c : Nat) : List Nat :=
  if c < 0x80 then [c]
  else if c < 0x800 then [0xC0 + c / 64, 0x80 + c % 64]
  else if c < 0x10000 then [0xE0 + c / 4096, 0x80 + c / 64 % 64, 0x80 + c % 64]
  else [0xF0 + c / 262144, 0x80 + c / 4096 % 64, 0x80 + c / 64 % 64, 0x80 + c % 64]

/-- UTF-8 encoding of a Python string (`data.encode()`), as a byte list. -/
def utf8Encode (s : String) : List Nat :=
  s.data.flatMap fun c => utf8EncodeCp c.toNat

/-- A UTF-8 continuation byte. -/
def isCont (b : Nat) : Bool := 0x80 ≤ b && b < 0xC0

/-- Tail of a 2-byte UTF-8 sequence with lead byte `b0` (overlong rejected). -/
def utf8Cont1 (b0 : Nat) : List Nat → Option (Nat × List Nat)
  | b1 :: r =>
    if isCont b1 && 0x80 ≤ (b0 - 0xC0) * 64 + (b1 - 0x80) then
      some ((b0 - 0xC0) * 64 + (b1 - 0x80), r)
    else none
  | [] => none

/-- Tail of a 3-byte UTF-8 sequence (overlong and surrogates rejected). -/
def utf8Cont2 (b0 : Nat) : List Nat → Option (Nat × List Nat)
  | b1 :: b2 :: r =>
    if isCont b1 && isCont b2 && 0x800 ≤ (b0 - 0xE0) * 4096 + (b1 - 0x80) * 64 + (b2 - 0x80) &&
        !(0xD800 ≤ (b0 - 0xE0) * 4096 + (b1 - 0x80) * 64 + (b2 - 0x80) &&
          (b0 - 0xE0) * 4096 + (b1 - 0x80) * 64 + (b2 - 0x80) < 0xE000) then
      some ((b0 - 0xE0) * 4096 + (b1 - 0x80) * 64 + (b2 - 0x80), r)
    else none
  | _ => none

/-- Tail of a 4-byte UTF-8 sequence (overlong and out-of-range rejected). -/
def utf8Cont3 (b0 : Nat) : List Nat → Option (Nat × List Nat)
  | b1 :: b2 :: b3 :: r =>
    if isCont b1 && isCont b2 && isCont b3 &&
        0x10000 ≤ (b0 - 0xF0) * 262144 + (b1 - 0x80) * 4096 + (b2 - 0x80) * 64 + (b3 - 0x80) &&
        (b0 - 0xF0) * 262144 + (b1 - 0x80) * 4096 + (b2 - 0x80) * 64 + (b3 - 0x80) < 0x110000 then
      some ((b0 - 0xF0) * 262144 + (b1 - 0x80) * 4096 + (b2 - 0x80) * 64 + (b3 - 0x80), r)
    else none
  | _ => none

/-- Decode one UTF-8 sequence off the front of a byte list (strict mode):
rejects bare continuation bytes, truncated sequences, overlong encodings,
surrogates and code points above `0x10FFFF`.  Returns the code point and the
remaining bytes. -/
def utf8DecodeOne : List Nat → Option (Nat × List Nat)
  | [] => none
  | b0 :: rest =>
    if b0 < 0x80 then some (b0, rest)
    else if b0 < 0xC0 then none
    else if b0 < 0xE0 then utf8Cont1 b0 rest
    else if b0 < 0xF0 then utf8Cont2 b0 rest
    else if b0 < 0xF8 then utf8Cont3 b0 rest
    else none

set_option maxRecDepth 8000 in
theorem utf8Cont1_some_length {b0 : Nat} {bs : List Nat} {c : Nat} {r : List Nat}
    (h : utf8Cont1 b0 bs = some (c, r)) : r.length < bs.length := by
  rcases bs with _ | ⟨b1, t⟩
  · simp [utf8Cont1] at h
  · simp only [utf8Cont1] at h
    split at h
    · cases h
      simp
    · cases h

set_option maxRecDepth 8000 in
theorem utf8Cont2_some_length {b0 : Nat} {bs : List Nat} {c : Nat} {r : List Nat}
    (h : utf8Cont2 b0 bs = some (c, r)) : r.length < bs.length := by
  rcases bs with _ | ⟨b1, _ | ⟨b2, t⟩⟩
  · simp [utf8Cont2] at h
  · simp [utf8Cont2] at h
  · simp only [utf8Cont2] at h
    split at h
    · cases h
      simp
      omega
    · cases h

set_option maxRecDepth 8000 in
theorem utf8Cont3_some_length {b0 : Nat} {bs : List Nat} {c : Nat} {r : List Nat}
    (h : utf8Cont3 b0 bs = some (c, r)) : r.length < bs.length := by
  rcases bs with _ | ⟨b1, _ | ⟨b2, _ | ⟨b3, t⟩⟩⟩
  · simp [utf8Cont3] at h
  · simp [utf8Cont3] at h
  · simp [utf8Cont3] at h
  · simp only [utf8Cont3] at h
    split at h
    · cases h
      simp
      omega
    · cases h

theorem utf8DecodeOne_some_length {bs : List Nat} {c : Nat} {r : List Nat}
    (h : utf8DecodeOne bs = some (c, r)) : r.length < bs.length := by
  rcases bs with _ | ⟨b0, rest⟩
  · simp [utf8DecodeOne] at h
  · simp only [utf8DecodeOne] at h
    split_ifs at h
    · cases h
      simp
    · exact Nat.lt_succ_of_lt (utf8Cont1_some_length h)
    · exact Nat.lt_succ_of_lt (utf8Cont2_some_length h)
    · exact Nat.lt_succ_of_lt (utf8Cont3_some_length h)

/-- Strict UTF-8 decoding into code points, with explicit fuel (one unit per
decoded sequence) so that the function evaluates by kernel reduction. -/
def utf8DecodeLoop : Nat → List Nat → Option (List Nat)
  | _, [] => some []
  | 0, _ :: _ => none
  | fuel + 1, b0 :: rest =>
    match utf8DecodeOne (b0 :: rest) with
    | none => none
    | some (c, r) => (utf8DecodeLoop fuel r).map (c :: ·)

/-- Strict UTF-8 decoding into code points (the `bytes.decode` semantics);
`bs.length` units of fuel always suffice since every sequence is nonempty. -/
def utf8DecodeCps (bs : List Nat) : Option (List Nat) :=
  utf8DecodeLoop bs.length bs

/-- Strict UTF-8 decoding of a byte list into a Python string. -/
def utf8Decode (bs : List Nat) : Option String :=
  (utf8DecodeCps bs).map fun cs => ⟨cs.map Char.ofNat⟩

theorem utf8DecodeLoop_congr :
    ∀ (f1 f2 : Nat) (bs : List Nat), bs.length ≤ f1 → bs.length ≤ f2 →
      utf8DecodeLoop f1 bs = utf8DecodeLoop f2 bs := by
  intro f1
  induction f1 with
  | zero =>
    intro f2 bs h1 _
    rcases bs with _ | ⟨b0, rest⟩
    · cases f2 <;> rfl
    · simp at h1
  | succ g1 ih =>
    intro f2 bs h1 h2
    rcases bs with _ | ⟨b0, rest⟩
    · cases f2 <;> rfl
    · rcases f2 with _ | g2
      · simp at h2
      · simp only [utf8DecodeLoop]
        rcases hone : utf8DecodeOne (b0 :: rest) with _ | ⟨c, r⟩
        · rfl
        · have hr := utf8DecodeOne_some_length hone
          simp only [List.length_cons] at h1 h2 hr
          dsimp only
          rw [ih g2 r (by omega) (by omega)]

/-- Unfolding equation for `utf8DecodeCps` on a nonempty list. -/
theorem utf8DecodeCps_cons_of_decodeOne {b0 : Nat} {rest : List Nat} {c : Nat} {r : List Nat}
    (h : utf8DecodeOne (b0 :: rest) = some (c, r)) :
    utf8DecodeCps (b0 :: rest) = (utf8DecodeCps r).map (c :: ·) := by
  have hr := utf8DecodeOne_some_length h
  simp only [List.length_cons] at hr
  unfold utf8DecodeCps
  simp only [List.length_cons, utf8DecodeLoop, h]
  rw [utf8DecodeLoop_congr rest.length r.length r (by omega) (by omega)]

/-- A Unicode scalar value (what a Lean `Char` / Python non-surrogate code point is). -/
def ValidCp (c : Nat) : Prop := c < 0xD800 ∨ (0xE000 ≤ c ∧ c < 0x110000)

theorem validCp_of_char (c : Char) : ValidCp c.toNat := by
  have h : c.val.toNat < 0xD800 ∨ (0xDFFF < c.val.toNat ∧ c.val.toNat < 0x110000) := c.valid
  unfold ValidCp Char.toNat
  omega

theorem utf8EncodeCp_lt_256 (c : Nat) (hc : c < 0x110000) :
    ∀ b ∈ utf8EncodeCp c, b < 256 := by
  intro b hb
  unfold utf8EncodeCp at hb
  split_ifs at hb with h1 h2 h3 <;> simp only [List.mem_cons, List.not_mem_nil, or_false] at hb
  · omega
  · rcases hb with h | h <;> omega
  · rcases hb with h | h | h <;> omega
  · rcases hb with h | h | h | h <;> omega

theorem utf8EncodeCp_ne_nil (c : Nat) : utf8EncodeCp c ≠ [] := by
  unfold utf8EncodeCp
  split_ifs <;> simp

/-- One decoding step inverts the encoding of any valid code point. -/
theorem utf8DecodeOne_encode (c : Nat) (hv : ValidCp c) (rest : List Nat) :
    utf8DecodeOne (utf8EncodeCp c ++ rest) = some (c, rest) := by
  unfold ValidCp at hv
  unfold utf8EncodeCp
  split_ifs with h1 h2 h3
  · simp only [List.cons_append, List.nil_append, utf8DecodeOne]
    rw [if_pos h1]
  · simp only [List.cons_append, List.nil_append, utf8DecodeOne]
    have hA : ¬(0xC0 + c / 64 < 0x80) := by omega
    have hB : ¬(0xC0 + c / 64 < 0xC0) := by omega
    have hC : 0xC0 + c / 64 < 0xE0 := by omega
    rw [if_neg hA, if_neg hB, if_pos hC]
    simp only [utf8Cont1]
    rw [if_pos (by simp [isCont]; omega)]
    have : (0xC0 + c / 64 - 0xC0) * 64 + (0x80 + c % 64 - 0x80) = c := by omega
    rw [this]
  · simp only [List.cons_append, List.nil_append, utf8DecodeOne]
    have hA : ¬(0xE0 + c / 4096 < 0x80) := by omega
    have hB : ¬(0xE0 + c / 4096 < 0xC0) := by omega
    have hC : ¬(0xE0 + c / 4096 < 0xE0) := by omega
    have hD : 0xE0 + c / 4096 < 0xF0 := by omega
    rw [if_neg hA, if_neg hB, if_neg hC, if_pos hD]
    simp only [utf8Cont2]
    rw [if_pos (by simp [isCont]; omega)]
    have : (0xE0 + c / 4096 - 0xE0) * 4096 + (0x80 + c / 64 % 64 - 0x80) * 64 +
        (0x80 + c % 64 - 0x80) = c := by omega
    rw [this]
  · simp only [List.cons_append, List.nil_append, utf8DecodeOne]
    have hA : ¬(0xF0 + c / 262144 < 0x80) := by omega
    have hB : ¬(0xF0 + c / 262144 < 0xC0) := by omega
    have hC : ¬(0xF0 + c / 262144 < 0xE0) := by omega
    have hD : ¬(0xF0 + c / 262144 < 0xF0) := by omega
    have hE : 0xF0 + c / 262144 < 0xF8 := by omega
    rw [if_neg hA, if_neg hB, if_neg hC, if_neg hD, if_pos hE]
    simp only [utf8Cont3]
    rw [if_pos (by simp [isCont]; omega)]
    have : (0xF0 + c / 262144 - 0xF0) * 262144 + (0x80 + c / 4096 % 64 - 0x80) * 4096 +
        (0x80 + c / 64 % 64 - 0x80) * 64 + (0x80 + c % 64 - 0x80) = c := by omega
    rw [this]

/-- Decoding a validly-encoded code point peels it off the front. -/
theorem utf8DecodeCps_encode_cons (c : Nat) (hv : ValidCp c) (rest : List Nat) :
    utf8DecodeCps (utf8EncodeCp c ++ rest) = (utf8DecodeCps rest).map (c :: ·) := by
  have hne := utf8EncodeCp_ne_nil c
  have hdec := utf8DecodeOne_encode c hv rest
  rcases he : utf8EncodeCp c with _ | ⟨b0, bs⟩
  · exact absurd he hne
  · rw [he] at hdec
    simp only [List.cons_append] at hdec ⊢
    exact utf8DecodeCps_cons_of_decodeOne hdec

theorem utf8DecodeCps_flatMap (cs : List Nat) (h : ∀ c ∈ cs, ValidCp c) :
    utf8DecodeCps (cs.flatMap utf8EncodeCp) = some cs := by
  induction cs with
  | nil => rfl
  | cons c rest ih =>
    rw [List.flatMap_cons, utf8DecodeCps_encode_cons c (h c (List.mem_cons_self ..)) _,
      ih fun x hx => h x (List.mem_cons_of_mem _ hx)]
    rfl

theorem utf8DecodeCps_utf8Encode (s : String) :
    utf8DecodeCps (utf8Encode s) = some (s.data.map Char.toNat) := by
  unfold utf8Encode
  have hfm : s.data.flatMap (fun c => utf8EncodeCp c.toNat) =
      (s.data.map Char.toNat).flatMap utf8EncodeCp := by
    rw [List.flatMap_map]
  rw [hfm, utf8DecodeCps_flatMap]
  intro c hc
  rcases List.mem_map.mp hc with ⟨ch, _, rfl⟩
  exact validCp_of_char ch

/-- Decoding inverts encoding: `data.encode().decode() == data`. -/
theorem utf8Decode_utf8Encode (s : String) : utf8Decode (utf8Encode s) = some s := by
  unfold utf8Decode
  rw [utf8DecodeCps_utf8Encode]
  cases s with
  | mk data =>
    simp [List.map_map, Function.comp_def, Char.ofNat_toNat]

/-! ## Hex codec

Semantics of `binascii.hexlify` / `binascii.unhexlify` as used by
`encrypt_data` / `decrypt_data` (`src/apps/api/utils.py`). -/

/-- Lower-case hex digit for a value below 16 (`binascii.hexlify` output). -/
def hexDigitChar (n : Nat) : Char := Char.ofNat (if n < 10 then 48 + n else 87 + n)

/-- `binascii.hexlify(bs).decode()`: two lower-case hex digits per byte. -/
def hexlify (bs : List Nat) : String :=
  ⟨bs.flatMap fun b => [hexDigitChar (b / 16), hexDigitChar (b % 16)]⟩

/-- Value of one hex digit; accepts both cases (`binascii.unhexlify` input). -/
def hexVal (c : Char) : Option Nat :=
  if 48 ≤ c.toNat ∧ c.toNat ≤ 57 then some (c.toNat - 48)
  else if 97 ≤ c.toNat ∧ c.toNat ≤ 102 then some (c.toNat - 87)
  else if 65 ≤ c.toNat ∧ c.toNat ≤ 70 then some (c.toNat - 55)
  else none

/-- `binascii.unhexlify` on a character list: fails (raises `binascii.Error`)
on odd length or any non-hex digit. -/
def unhexChars : List Char → Option (List Nat)
  | [] => some []
  | [_] => none
  | c1 :: c2 :: rest =>
    match hexVal c1, hexVal c2 with
    | some hi, some lo => (unhexChars rest).map ((16 * hi + lo) :: ·)
    | _, _ => none

/-- `binascii.unhexlify` on a Python string. -/
def unhexlify (s : String) : Option (List Nat) := unhexChars s.data

theorem hexVal_hexDigitChar : ∀ n, n < 16 → hexVal (hexDigitChar n) = some n := by decide

theorem unhexChars_hexFlat (bs : List Nat) (h : ∀ b ∈ bs, b < 256) :
    unhexChars (bs.flatMap fun b => [hexDigitChar (b / 16), hexDigitChar (b % 16)]) = some bs := by
  induction bs with
  | nil => rfl
  | cons b rest ih =>
    have hb : b < 256 := h b (List.mem_cons_self ..)
    rw [List.flatMap_cons]
    simp only [List.cons_append, List.nil_append]
    rw [unhexChars, hexVal_hexDigitChar (b / 16) (by omega),
      hexVal_hexDigitChar (b % 16) (by omega)]
    dsimp only
    rw [ih fun x hx => h x (List.mem_cons_of_mem _ hx)]
    have hdm : 16 * (b / 16) + b % 16 = b := by omega
    rw [hdm]
    rfl

theorem unhexlify_hexlify (bs : List Nat) (h : ∀ b ∈ bs, b < 256) :
    unhexlify (hexlify bs) = some bs :=
  unhexChars_hexFlat bs h

/-! ## CBC block layer

The repository calls `cryptography.hazmat`'s AES-CBC cipher on the padded
bytes.  The AES-256 block permutation itself (keyed by
`sha256(key).digest()[:32]`) and the hashed IV (`sha256(iv).digest()[:16]`)
are external primitives, taken here as parameters `E`/`D` (the block
permutation and its inverse) and `ivh` (the 16-byte hashed IV).  The CBC
chaining, and the cipher's requirement that its input length be a multiple
of the 16-byte block size (else `encryptor.update/finalize` raises
`ValueError`), are modelled concretely. -/

/-- Byte-wise XOR of two blocks. -/
def xorBytes (a b : List Nat) : List Nat := List.zipWith (fun x y => x ^^^ y) a b

/-- Split into consecutive 16-byte blocks, given the block count. -/
def chunksOf : Nat → List Nat → List (List Nat)
  | 0, _ => []
  | n + 1, bs => bs.take 16 :: chunksOf n (bs.drop 16)

/-- Split a byte string whose length is a multiple of 16 into blocks. -/
def chunk16 (bs : List Nat) : List (List Nat) := chunksOf (bs.length / 16) bs

/-- CBC-mode encryption over a block list with previous-ciphertext chaining. -/
def cbcEnc (E : List Nat → List Nat) (prev : List Nat) : List (List Nat) → List (List Nat)
  | [] => []
  | b :: bs => E (xorBytes b prev) :: cbcEnc E (E (xorBytes b prev)) bs

/-- CBC-mode decryption over a block list with previous-ciphertext chaining. -/
def cbcDec (D : List Nat → List Nat) (prev : List Nat) : List (List Nat) → List (List Nat)
  | [] => []
  | c :: cs => xorBytes (D c) prev :: cbcDec D c cs

theorem xorBytes_length (a b : List Nat) : (xorBytes a b).length = min a.length b.length :=
  List.length_zipWith ..

theorem xorBytes_xorBytes (a b : List Nat) : xorBytes (xorBytes a b) b = a.take b.length := by
  induction a generalizing b with
  | nil => simp [xorBytes]
  | cons x xs ih =>
    cases b with
    | nil => simp [xorBytes]
    | cons y ys =>
      simp only [xorBytes, List.zipWith_cons_cons, List.take_succ_cons] at *
      rw [Nat.xor_assoc, Nat.xor_self, Nat.xor_zero, ih]
      simp

theorem xorBytes_lt_256 :
    ∀ (a b : List Nat), (∀ x ∈ a, x < 256) → (∀ x ∈ b, x < 256) →
      ∀ x ∈ xorBytes a b, x < 256 := by
  intro a
  induction a with
  | nil => intro b _ _ x hx; simp [xorBytes] at hx
  | cons p ps ih =>
    intro b ha hb x hx
    cases b with
    | nil => simp [xorBytes] at hx
    | cons q qs =>
      simp only [xorBytes, List.zipWith_cons_cons, List.mem_cons] at hx
      rcases hx with rfl | hx
      · have hp : p < 256 := ha p (List.mem_cons_self ..)
        have hq : q < 256 := hb q (List.mem_cons_self ..)
        have h256 : (256 : Nat) = 2 ^ 8 := by norm_num
        rw [h256] at hp hq ⊢
        exact Nat.xor_lt_two_pow hp hq
      · exact ih qs (fun y hy => ha y (List.mem_cons_of_mem _ hy))
          (fun y hy => hb y (List.mem_cons_of_mem _ hy)) x hx

theorem chunksOf_cons_of_block {c : List Nat} (n : Nat) (rest : List Nat) (hc : c.length = 16) :
    chunksOf (n + 1) (c ++ rest) = c :: chunksOf n rest := by
  rw [chunksOf, List.take_left' hc, List.drop_left' hc]

/-- Splitting the concatenation of 16-byte blocks recovers the blocks. -/
theorem chunksOf_flatten (cs : List (List Nat)) (h : ∀ c ∈ cs, c.length = 16) :
    chunksOf cs.length cs.flatten = cs := by
  induction cs with
  | nil => rfl
  | cons c rest ih =>
    rw [List.length_cons, List.flatten_cons,
      chunksOf_cons_of_block rest.length rest.flatten (h c (List.mem_cons_self ..)),
      ih fun x hx => h x (List.mem_cons_of_mem _ hx)]

theorem flatten_length_of_blocks (cs : List (List Nat)) (h : ∀ c ∈ cs, c.length = 16) :
    cs.flatten.length = 16 * cs.length := by
  induction cs with
  | nil => rfl
  | cons c rest ih =>
    rw [List.flatten_cons, List.length_append, h c (List.mem_cons_self ..),
      ih fun x hx => h x (List.mem_cons_of_mem _ hx), List.length_cons]
    ring

theorem chunk16_flatten (cs : List (List Nat)) (h : ∀ c ∈ cs, c.length = 16) :
    chunk16 cs.flatten = cs := by
  rw [chunk16, flatten_length_of_blocks cs h, Nat.mul_div_cancel_left _ (by norm_num)]
  exact chunksOf_flatten cs h

/-- CBC-encrypted blocks are themselves well-formed 16-byte byte blocks,
provided the block cipher `E` maps 16-byte byte blocks to 16-byte byte
blocks (as the AES permutation does). -/
theorem cbcEnc_blocks (E : List Nat → List Nat)
    (hE : ∀ b, b.length = 16 → (∀ x ∈ b, x < 256) → (E b).length = 16 ∧ ∀ x ∈ E b, x < 256) :
    ∀ (chunks : List (List Nat)) (prev : List Nat),
      (∀ c ∈ chunks, c.length = 16 ∧ ∀ x ∈ c, x < 256) →
      prev.length = 16 → (∀ x ∈ prev, x < 256) →
      ∀ c ∈ cbcEnc E prev chunks, c.length = 16 ∧ ∀ x ∈ c, x < 256 := by
  intro chunks
  induction chunks with
  | nil => intro prev _ _ _ c hc; simp [cbcEnc] at hc
  | cons b bs ih =>
    intro prev hblk hprev hprevB c hc
    have hb := hblk b (List.mem_cons_self ..)
    have hxlen : (xorBytes b prev).length = 16 := by
      rw [xorBytes_length, hb.1, hprev]; simp
    have hxB : ∀ x ∈ xorBytes b prev, x < 256 := xorBytes_lt_256 b prev hb.2 hprevB
    have hEb := hE _ hxlen hxB
    simp only [cbcEnc, List.mem_cons] at hc
    rcases hc with rfl | hc
    · exact hEb
    · exact ih (E (xorBytes b prev)) (fun x hx => hblk x (List.mem_cons_of_mem _ hx))
        hEb.1 hEb.2 c hc

/-- CBC decryption with the inverse block permutation undoes CBC encryption
(on byte blocks, where the block cipher is a permutation). -/
theorem cbcDec_cbcEnc (E D : List Nat → List Nat)
    (hD : ∀ b, b.length = 16 → (∀ x ∈ b, x < 256) → D (E b) = b)
    (hE : ∀ b, b.length = 16 → (∀ x ∈ b, x < 256) → (E b).length = 16 ∧ ∀ x ∈ E b, x < 256) :
    ∀ (chunks : List (List Nat)) (prev : List Nat),
      (∀ c ∈ chunks, c.length = 16 ∧ ∀ x ∈ c, x < 256) →
      prev.length = 16 → (∀ x ∈ prev, x < 256) →
      cbcDec D prev (cbcEnc E prev chunks) = chunks := by
  intro chunks
  induction chunks with
  | nil => intro prev _ _ _; rfl
  | cons b bs ih =>
    intro prev hblk hprev hprevB
    have hb := hblk b (List.mem_cons_self ..)
    have hxlen : (xorBytes b prev).length = 16 := by
      rw [xorBytes_length, hb.1, hprev]; simp
    have hxB : ∀ x ∈ xorBytes b prev, x < 256 := xorBytes_lt_256 b prev hb.2 hprevB
    have hEb := hE _ hxlen hxB
    rw [cbcEnc, cbcDec, hD _ hxlen hxB, xorBytes_xorBytes, hprev, ← hb.1, List.take_length,
      ih (E (xorBytes b prev)) (fun x hx => hblk x (List.mem_cons_of_mem _ hx)) hEb.1 hEb.2]

theorem chunksOf_length_eq (n : Nat) :
    ∀ bs : List Nat, bs.length = 16 * n → ∀ c ∈ chunksOf n bs, c.length = 16 := by
  induction n with
  | zero => intro bs _ c hc; simp [chunksOf] at hc
  | succ m ih =>
    intro bs hlen c hc
    simp only [chunksOf, List.mem_cons] at hc
    rcases hc with rfl | hc
    · rw [List.length_take, hlen]
      omega
    · exact ih (bs.drop 16) (by rw [List.length_drop, hlen]; omega) c hc

theorem chunksOf_mem_mem (n : Nat) :
    ∀ (bs : List Nat) (c : List Nat), c ∈ chunksOf n bs → ∀ x ∈ c, x ∈ bs := by
  induction n with
  | zero => intro bs c hc; simp [chunksOf] at hc
  | succ m ih =>
    intro bs c hc x hx
    simp only [chunksOf, List.mem_cons] at hc
    rcases hc with rfl | hc
    · exact List.mem_of_mem_take hx
    · exact List.mem_of_mem_drop (ih (bs.drop 16) c hc x hx)

theorem flatten_chunksOf (n : Nat) :
    ∀ bs : List Nat, bs.length = 16 * n → (chunksOf n bs).flatten = bs := by
  induction n with
  | zero =>
    intro bs hlen
    have hnil : bs = [] := List.eq_nil_of_length_eq_zero (by omega)
    rw [hnil]
    rfl
  | succ m ih =>
    intro bs hlen
    rw [chunksOf, List.flatten_cons, ih (bs.drop 16) (by rw [List.length_drop, hlen]; omega),
      List.take_append_drop]

theorem chunk16_length_eq (bs : List Nat) (h : bs.length % 16 = 0) :
    ∀ c ∈ chunk16 bs, c.length = 16 :=
  chunksOf_length_eq (bs.length / 16) bs (by omega)

theorem chunk16_mem_mem (bs : List Nat) (c : List Nat) (hc : c ∈ chunk16 bs) :
    ∀ x ∈ c, x ∈ bs :=
  chunksOf_mem_mem (bs.length / 16) bs c hc

theorem flatten_chunk16 (bs : List Nat) (h : bs.length % 16 = 0) :
    (chunk16 bs).flatten = bs :=
  flatten_chunksOf (bs.length / 16) bs (by omega)

/-! ## `encrypt_data` / `decrypt_data` (`src/apps/api/utils.py`, lines 11–58)

The source derives `key_hash = sha256(key.encode()).digest()[:32]` and
`iv_hash = sha256(iv.encode()).digest()[:16]` and feeds them to an
AES-256-CBC cipher from the external `cryptography` library.  The embedding
abstracts exactly those external primitives: `E` is the AES block
permutation under the derived key (with inverse `D`), `ivh` the derived
16-byte IV.  Everything else is translated from the source: the padding
length is computed from the **character** count `len(data)`, the pad is
`chr(padding_length)` repeated, the padded string is UTF-8 encoded, CBC
encrypted (raising `ValueError` when the byte length is not a multiple of
16) and hexlified. -/

/-- `encrypt_data(data, key, iv)`: pads, encrypts, hex-encodes.  `.error`
models a raised exception (there is no `try` in the source function). -/
def encrypt_data (E : List Nat → List Nat) (ivh : List Nat) (data : String) :
    Except String String :=
  let padding_length := 16 - data.length % 16
  let padded_data := data ++ ⟨List.replicate padding_length (Char.ofNat padding_length)⟩
  let padded_bytes := utf8Encode padded_data
  if padded_bytes.length % 16 = 0 then
    .ok (hexlify (cbcEnc E ivh (chunk16 padded_bytes)).flatten)
  else
    .error "ValueError: The length of the provided data is not a multiple of the block length"

/-- Python `decrypted[:-padding_length]` on a byte string: empty when
`padding_length = 0` (since `b[:-0] == b[:0]`), else drops the last
`padding_length` bytes. -/
def pyTailSlice (padding_length : Nat) (l : List Nat) : List Nat :=
  if padding_length = 0 then [] else l.take (l.length - padding_length)

/-- The body of `decrypt_data` without its `try/except`: every statement
that can raise is mapped to the corresponding `.error`.  Steps, as in the
source: unhexlify, CBC-decrypt (block-size check), read `decrypted[-1]` as
the padding length (raises `IndexError` on empty input), strip the padding,
UTF-8 decode. -/
def decrypt_body (D : List Nat → List Nat) (ivh : List Nat) (encrypted_data : String) :
    Except String String :=
  match unhexlify encrypted_data with
  | none => .error "binascii.Error: decoding failed"
  | some encrypted_bytes =>
    if encrypted_bytes.length % 16 = 0 then
      match (cbcDec D ivh (chunk16 encrypted_bytes)).flatten.getLast? with
      | none => .error "IndexError: index out of range"
      | some padding_length =>
        match utf8Decode
            (pyTailSlice padding_length (cbcDec D ivh (chunk16 encrypted_bytes)).flatten) with
        | none => .error "UnicodeDecodeError: invalid start byte"
        | some plaintext => .ok plaintext
    else .error "ValueError: The length of the provided data is not a multiple of the block length"

/-- `decrypt_data(encrypted_data, key, iv)`: the whole body runs inside
`try: ... except Exception: return None`, so every failing step yields
`none` and a successful run yields the plaintext. -/
def decrypt_data (D : List Nat → List Nat) (ivh : List Nat) (encrypted_data : String) :
    Option String :=
  match unhexlify encrypted_data with
  | none => none
  | some encrypted_bytes =>
    if encrypted_bytes.length % 16 = 0 then
      match (cbcDec D ivh (chunk16 encrypted_bytes)).flatten.getLast? with
      | none => none
      | some padding_length =>
        utf8Decode
          (pyTailSlice padding_length (cbcDec D ivh (chunk16 encrypted_bytes)).flatten)
    else none

theorem charToNat_ofNat_small : ∀ n, n < 128 → (Char.ofNat n).toNat = n := by decide

theorem utf8Encode_append (s t : String) :
    utf8Encode (s ++ t) = utf8Encode s ++ utf8Encode t := by
  unfold utf8Encode
  rw [String.data_append, List.flatMap_append]

theorem utf8Encode_replicate (n : Nat) (c : Char) (h : c.toNat < 128) :
    utf8Encode ⟨List.replicate n c⟩ = List.replicate n c.toNat := by
  induction n with
  | zero => rfl
  | succ m ih =>
    show (List.replicate (m + 1) c).flatMap (fun ch => utf8EncodeCp ch.toNat) = _
    rw [List.replicate_succ, List.flatMap_cons]
    have henc : utf8EncodeCp c.toNat = [c.toNat] := by
      unfold utf8EncodeCp
      rw [if_pos (by omega)]
    rw [henc]
    have : (List.replicate m c).flatMap (fun ch => utf8EncodeCp ch.toNat) =
        List.replicate m c.toNat := ih
    rw [this, List.replicate_succ]
    rfl

theorem utf8Encode_ascii (l : List Char) (h : ∀ c ∈ l, c.toNat < 128) :
    utf8Encode ⟨l⟩ = l.map Char.toNat := by
  induction l with
  | nil => rfl
  | cons c rest ih =>
    show (c :: rest).flatMap (fun ch => utf8EncodeCp ch.toNat) = _
    rw [List.flatMap_cons]
    have henc : utf8EncodeCp c.toNat = [c.toNat] := by
      unfold utf8EncodeCp
      rw [if_pos (h c (List.mem_cons_self ..))]
    rw [henc]
    have hrest : rest.flatMap (fun ch => utf8EncodeCp ch.toNat) = rest.map Char.toNat :=
      ih fun x hx => h x (List.mem_cons_of_mem _ hx)
    rw [hrest]
    rfl

theorem utf8Encode_length_ascii (s : String) (h : ∀ c ∈ s.data, c.toNat < 128) :
    (utf8Encode s).length = s.length := by
  have : utf8Encode s = s.data.map Char.toNat := utf8Encode_ascii s.data h
  rw [this, List.length_map]
  rfl

theorem utf8Encode_lt_256 (s : String) : ∀ b ∈ utf8Encode s, b < 256 := by
  intro b hb
  unfold utf8Encode at hb
  rcases List.mem_flatMap.mp hb with ⟨c, _, hbc⟩
  have hv := validCp_of_char c
  unfold ValidCp at hv
  exact utf8EncodeCp_lt_256 c.toNat (by omega) b hbc

/-- The padded byte string produced inside `encrypt_data`: the UTF-8 bytes of
the plaintext followed by `16 - len(data) % 16` copies of that same value. -/
theorem utf8Encode_padded (data : String) :
    utf8Encode (data ++ ⟨List.replicate (16 - data.length % 16)
        (Char.ofNat (16 - data.length % 16))⟩) =
      utf8Encode data ++ List.replicate (16 - data.length % 16) (16 - data.length % 16) := by
  rw [utf8Encode_append,
    utf8Encode_replicate _ _ (by rw [charToNat_ofNat_small _ (by omega)]; omega),
    charToNat_ofNat_small _ (by omega)]

/-- When the UTF-8 byte count of the plaintext is congruent to its character
count mod 16 (e.g. for every pure-ASCII plaintext), the padded byte string is
block-aligned and `encrypt_data` succeeds, hexlifying the CBC ciphertext. -/
theorem encrypt_data_eq_ok (E : List Nat → List Nat) (ivh : List Nat) (data : String)
    (hcong : (utf8Encode data).length % 16 = data.length % 16) :
    encrypt_data E ivh data =
      .ok (hexlify (cbcEnc E ivh (chunk16 (utf8Encode data ++
        List.replicate (16 - data.length % 16) (16 - data.length % 16)))).flatten) := by
  unfold encrypt_data
  dsimp only
  rw [utf8Encode_padded data]
  rw [if_pos (by
    rw [List.length_append, List.length_replicate]
    omega)]

/-- Decrypting the ciphertext produced by a successful `encrypt_data` run with
the inverse block permutation recovers the original plaintext. -/
theorem decrypt_data_of_encrypt (E D : List Nat → List Nat) (ivh : List Nat) (data : String)
    (hD : ∀ b, b.length = 16 → (∀ x ∈ b, x < 256) → D (E b) = b)
    (hE : ∀ b, b.length = 16 → (∀ x ∈ b, x < 256) → (E b).length = 16 ∧ ∀ x ∈ E b, x < 256)
    (hivL : ivh.length = 16) (hivB : ∀ x ∈ ivh, x < 256)
    (hcong : (utf8Encode data).length % 16 = data.length % 16) :
    decrypt_data D ivh (hexlify (cbcEnc E ivh (chunk16 (utf8Encode data ++
      List.replicate (16 - data.length % 16) (16 - data.length % 16)))).flatten) = some data := by
  have hPpos : 1 ≤ 16 - data.length % 16 := by omega
  have hPle : 16 - data.length % 16 ≤ 16 := by omega
  set B := utf8Encode data ++ List.replicate (16 - data.length % 16) (16 - data.length % 16)
    with hBdef
  have hBlen : B.length % 16 = 0 := by
    rw [hBdef, List.length_append, List.length_replicate]
    omega
  have hBbytes : ∀ x ∈ B, x < 256 := by
    intro x hx
    rw [hBdef] at hx
    rcases List.mem_append.mp hx with hx | hx
    · exact utf8Encode_lt_256 data x hx
    · have := List.eq_of_mem_replicate hx
      omega
  have hchunks : ∀ c ∈ chunk16 B, c.length = 16 ∧ ∀ x ∈ c, x < 256 :=
    fun c hc => ⟨chunk16_length_eq B hBlen c hc,
      fun x hx => hBbytes x (chunk16_mem_mem B c hc x hx)⟩
  have hCblocks : ∀ c ∈ cbcEnc E ivh (chunk16 B), c.length = 16 ∧ ∀ x ∈ c, x < 256 :=
    cbcEnc_blocks E hE (chunk16 B) ivh hchunks hivL hivB
  set C := cbcEnc E ivh (chunk16 B) with hCdef
  have hCflatB : ∀ x ∈ C.flatten, x < 256 := by
    intro x hx
    rcases List.mem_flatten.mp hx with ⟨c, hc, hxc⟩
    exact (hCblocks c hc).2 x hxc
  have hCflatLen : C.flatten.length % 16 = 0 := by
    rw [flatten_length_of_blocks C fun c hc => (hCblocks c hc).1]
    omega
  unfold decrypt_data
  rw [unhexlify_hexlify C.flatten hCflatB]
  dsimp only
  rw [if_pos hCflatLen]
  rw [chunk16_flatten C fun c hc => (hCblocks c hc).1]
  rw [hCdef, cbcDec_cbcEnc E D hD hE (chunk16 B) ivh hchunks hivL hivB]
  rw [flatten_chunk16 B hBlen]
  have hlast : B.getLast? = some (16 - data.length % 16) := by
    rw [hBdef, List.getLast?_append, List.getLast?_replicate, if_neg (by omega)]
    rfl
  rw [hlast]
  dsimp only
  have hslice : pyTailSlice (16 - data.length % 16) B = utf8Encode data := by
    unfold pyTailSlice
    rw [if_neg (by omega), hBdef, List.length_append, List.length_replicate]
    have harith : (utf8Encode data).length + (16 - data.length % 16) - (16 - data.length % 16) =
        (utf8Encode data).length := by omega
    rw [harith, List.take_left]
  rw [hslice]
  exact utf8Decode_utf8Encode data

/-! ## Data model (`src/apps/*/models.py`)

Database rows are records; tables are lists of records; `timezone.now()` is
an `Int` parameter (seconds); Django `DateTimeField`/`DurationField` values
are `Int`s; nullable fields are `Option`s; foreign keys are surrogate ids. -/

/-- `License.Status` (`src/apps/licenses/models.py`). -/
inductive LicStatus
  | not_used
  | used
  | banned
deriving DecidableEq

/-- `License` (`src/apps/licenses/models.py`): one row of the `licenses`
table.  `unique_together = [key, application]`. -/
structure License where
  key : String
  application : Nat
  level : String := "1"
  status : LicStatus := .not_used
  expires_seconds : Int
  used_at : Option Int := none
  used_by : Option String := none
  ban_reason : Option String := none
deriving DecidableEq

/-- `License.ban(reason)`: sets status to BANNED and records the reason. -/
def License.ban (l : License) (reason : String) : License :=
  { l with status := .banned, ban_reason := some reason }

/-- `License.unban()`: restores USED when `used_by` is truthy (non-null,
non-empty — Python `if self.used_by`), else NOT_USED; clears `ban_reason`. -/
def License.unban (l : License) : License :=
  { l with
    status := if pyTruthyStr l.used_by then LicStatus.used else LicStatus.not_used,
    ban_reason := none }

/-- `Subscription` (`src/apps/subscriptions/models.py`): a plan template,
`unique_together = [name, application]`. -/
structure Subscription where
  name : String
  level : String
  application : Nat
deriving DecidableEq

/-- `UserSubscription` (`src/apps/subscriptions/models.py`): a grant.
`subscription` holds the plan's name, `user` the end-user's username. -/
structure UserSubscription where
  user : String
  subscription : String
  application : Nat
  expires_at : Int
  is_paused : Bool := false
  paused_time_remaining : Option Int := none
  license_key : Option String := none
deriving DecidableEq

/-- `UserSubscription.is_active`: false when paused, else `expires_at > now`. -/
def UserSubscription.is_active (s : UserSubscription) (now : Int) : Bool :=
  if s.is_paused then false else decide (now < s.expires_at)

/-- `UserSubscription.time_remaining`: the paused snapshot when paused and
truthy, else `max(0, expires_at - now)` (0 when already expired). -/
def UserSubscription.time_remaining (s : UserSubscription) (now : Int) : Int :=
  if s.is_paused && pyTruthyDur s.paused_time_remaining then
    s.paused_time_remaining.getD 0
  else if s.expires_at ≤ now then 0
  else s.expires_at - now

/-- `UserSubscription.pause()`: when not paused and still active, snapshots
`time_remaining` into `paused_time_remaining` and sets `is_paused`;
otherwise leaves the row unchanged. -/
def UserSubscription.pause (s : UserSubscription) (now : Int) : UserSubscription :=
  if !s.is_paused && s.is_active now then
    { s with paused_time_remaining := some (s.time_remaining now), is_paused := true }
  else s

/-- `UserSubscription.unpause()`: when paused with a truthy snapshot, sets
`expires_at = now + paused_time_remaining` and clears the pause state;
otherwise leaves the row unchanged. -/
def UserSubscription.unpause (s : UserSubscription) (now : Int) : UserSubscription :=
  if s.is_paused && pyTruthyDur s.paused_time_remaining then
    { s with
      expires_at := now + s.paused_time_remaining.getD 0,
      is_paused := false,
      paused_time_remaining := none }
  else s

/-- `ApplicationSession` (`src/apps/sessions/models.py`): `session_id` is
globally unique (`unique=True`). -/
structure ApplicationSession where
  session_id : String
  application : Nat
  credential : Option String := none
  is_validated : Bool := false
  ip_address : Option String := none
  expires_at : Int
deriving DecidableEq

/-- `ApplicationSession.is_expired`: `timezone.now() > expires_at`. -/
def ApplicationSession.is_expired (s : ApplicationSession) (now : Int) : Bool :=
  decide (s.expires_at < now)

/-- `ApplicationSettings` (`src/apps/applications/models.py`): the
tenant-configured message strings (only the fields the handlers below read). -/
structure AppSettings where
  app_disabled_msg : String := "This application is disabled"
  paused_app_msg : String :=
    "Application is currently paused, please wait for the developer to say otherwise."
  hash_check_fail_msg : String :=
    "This program hash does not match, make sure you're using latest version"
  vpn_blocked_msg : String := "VPNs are blocked on this application"
deriving DecidableEq

/-- `Application` (`src/apps/applications/models.py`), with its one-to-one
`settings` row inlined and only the fields the embedded handlers read.
`owner_id` is the owning account's 10-character id; `id` the surrogate key
sessions reference. -/
structure Application where
  id : Nat
  name : String
  owner_id : String
  is_enabled : Bool := true
  is_banned : Bool := false
  is_paused : Bool := false
  hwid_check_enabled : Bool := true
  vpn_block_enabled : Bool := false
  hash_check_enabled : Bool := false
  current_version : String := "1.0"
  download_url : Option String := none
  file_hash : Option String := none
  session_expiry_seconds : Int := 21600
  settings : AppSettings := {}
deriving DecidableEq

/-! ## API utility functions (`src/apps/api/utils.py`) -/

/-- The filter used by `Subscription.objects.get(application=..., level=...)`
inside `create_user_subscription`. -/
def planMatches (application : Nat) (level : String) (p : Subscription) : Bool :=
  p.application == application && p.level == level

/-- `create_user_subscription(user, license_obj, application)`
(`src/apps/api/utils.py`, lines 76–101).  `plans`/`grants` are the
`subscriptions`/`user_subscriptions` tables.  Django's `.get` is modelled on
the filtered rows: zero rows raises `Subscription.DoesNotExist`, which the
source catches and turns into `(False, msg)`; more than one row raises
`MultipleObjectsReturned`, which the source does **not** catch (`.error`).
On success a `UserSubscription` with `expires_at = now + expires_seconds`
and `license_key = license_obj.key` is appended and `(True, plan.name)`
returned. -/
def create_user_subscription (plans : List Subscription) (grants : List UserSubscription)
    (user : String) (license_obj : License) (application : Nat) (now : Int) :
    Except String ((Bool × String) × List UserSubscription) :=
  match plans.filter (planMatches application license_obj.level) with
  | [] => .ok ((false, "No subscription found for license level"), grants)
  | [subscription] =>
    .ok ((true, subscription.name),
      grants ++ [{ user := user,
                   subscription := subscription.name,
                   application := application,
                   expires_at := now + license_obj.expires_seconds,
                   license_key := some license_obj.key }])
  | _ => .error "Subscription.MultipleObjectsReturned"

/-- The row filter of `validate_session`'s query:
`session_id=..., application=..., expires_at__gt=timezone.now()`. -/
def sessionMatches (session_id : String) (application : Nat) (now : Int)
    (s : ApplicationSession) : Bool :=
  s.session_id == session_id && s.application == application && decide (now < s.expires_at)

/-- `validate_session(session_id, application)` (`src/apps/api/utils.py`,
lines 61–73): returns the unique matching non-expired session of the
application, or `None` (`DoesNotExist` is caught).  `session_id` carries a
database-level uniqueness constraint, so `.get` on this filter is the first
matching row. -/
def validate_session (sessions : List ApplicationSession) (session_id : String)
    (application : Nat) (now : Int) : Option ApplicationSession :=
  sessions.find? (sessionMatches session_id application now)

/-! ## License-key generation (`src/apps/core/utils.py`, lines 35–47) -/

/-- `string.ascii_uppercase + string.digits`: the alphabet passed to
`secrets.choice` by `generate_license_key`. -/
def licenseAlphabet : List Char := "ABCDEFGHIJKLMNOPQRSTUVWXYZ0123456789".data

/-- The loop of `generate_license_key`: each `*` consumes the next random
draw (`secrets.choice`, modelled as the stream `choice` of draws, which the
theorems constrain to the alphabet); every other character is copied
verbatim.  `i` counts the draws consumed so far. -/
def genKeyChars (choice : Nat → Char) : List Char → Nat → List Char
  | [], _ => []
  | c :: rest, i =>
    if c = '*' then choice i :: genKeyChars choice rest (i + 1)
    else c :: genKeyChars choice rest i

/-- `generate_license_key(mask)`: expand the mask, replacing each `*` by a
random alphabet character. -/
def generate_license_key (choice : Nat → Char) (mask : String) : String :=
  ⟨genKeyChars choice mask.data 0⟩

/-! ## Request router / protocol handler (`src/apps/api/views.py`) -/

/-- A wire request: the fields `handle_init` reads
(`request.data.get(...)` yields `None` when absent). -/
structure ApiRequest where
  ownerid : Option String := none
  name : Option String := none
  ver : Option String := none
  hash : Option String := none
deriving DecidableEq

/-- The response shapes produced by `BaseAPIView` / `handle_init`:
`json` is `error_response` / `success_response` (`{success, message}` with
the given HTTP status), `jsonWithDownload` the `invalidver` response
carrying `download`, `raw` a bare-body DRF `Response` ("HexAUTH_Invalid"),
and `initSuccess` the successful init payload (its static `appinfo`
placeholder strings are not modelled). -/
inductive ApiResponse
  | json (success : Bool) (message : String) (httpStatus : Nat)
  | jsonWithDownload (success : Bool) (message : String) (download : Option String)
      (httpStatus : Nat)
  | raw (body : String) (httpStatus : Nat)
  | initSuccess (message : String) (sessionid : String)
deriving DecidableEq

/-- `BaseAPIView.get_application(owner_id, name)`: lookup by the unique pair
`(owner__owner_id, name)`. -/
def get_application (apps : List Application) (owner_id name : String) : Option Application :=
  apps.find? fun a => a.owner_id == owner_id && a.name == name

/-- `BaseAPIView.validate_application(request)` (`src/apps/api/views.py`,
lines 54–75): missing/empty ownerid or name, wrong ownerid length, unknown
application ("HexAUTH_Invalid"), then the ban check with its **fixed**
platform message. -/
def validate_application (apps : List Application) (req : ApiRequest) :
    Except ApiResponse Application :=
  if !pyTruthyStr req.ownerid then
    .error (.json false
      "No OwnerID specified. Select app & copy code snippet from HexAUTH dashboard." 400)
  else if !pyTruthyStr req.name then
    .error (.json false
      "No app name specified. Select app & copy code snippet from HexAUTH dashboard." 400)
  else if (req.ownerid.getD "").length ≠ 10 then
    .error (.json false "OwnerID should be 10 characters long." 400)
  else
    match get_application apps (req.ownerid.getD "") (req.name.getD "") with
    | none => .error (.raw "HexAUTH_Invalid" 400)
    | some app =>
      if app.is_banned then
        .error (.json false
          "This application has been banned from HexAUTH for violating terms." 400)
      else .ok app

/-- Python `needle in haystack` on strings: contiguous-substring test. -/
def pySubstrAux (needle : List Char) : List Char → Bool
  | [] => needle.isEmpty
  | c :: rest => needle.isPrefixOf (c :: rest) || pySubstrAux needle rest

/-- Python `needle in haystack` for the `hash` check. -/
def pyInStr (needle haystack : String) : Bool := pySubstrAux needle.data haystack.data

/-- `MainAPIView.handle_init(request)` (`src/apps/api/views.py`, lines
136–190).  `sessions` is the session table, `vpn` the external
`check_vpn_proxy` lookup, `whitelist` the `(application, ip)` rows of the
`Whitelist` table, `freshId` the random id `ApplicationSession.save`
generates.  Returns the response plus the updated session table (unchanged
on every rejection path). -/
def handle_init (apps : List Application) (sessions : List ApplicationSession)
    (req : ApiRequest) (ip : String) (vpn : String → Bool)
    (whitelist : List (Nat × String)) (now : Int) (freshId : String) :
    ApiResponse × List ApplicationSession :=
  match validate_application apps req with
  | .error r => (r, sessions)
  | .ok app =>
    if !app.is_enabled then (.json false app.settings.app_disabled_msg 400, sessions)
    else if app.is_paused then (.json false app.settings.paused_app_msg 400, sessions)
    else if pyTruthyStr req.ver && req.ver.getD "" != app.current_version then
      (.jsonWithDownload false "invalidver" app.download_url 400, sessions)
    else if app.hash_check_enabled && pyTruthyStr req.hash && pyTruthyStr app.file_hash &&
        !pyInStr (req.hash.getD "") (app.file_hash.getD "") then
      (.json false app.settings.hash_check_fail_msg 400, sessions)
    else if app.vpn_block_enabled && vpn ip && !whitelist.contains (app.id, ip) then
      (.json false app.settings.vpn_blocked_msg 400, sessions)
    else
      (.initSuccess "Initialized" freshId,
        sessions ++ [{ session_id := freshId,
                       application := app.id,
                       ip_address := some ip,
                       expires_at := now + app.session_expiry_seconds }])

/-! ## License consumption (spec §4.3)

The `license` operation's handler is referenced by `MainAPIView`'s dispatch
table but its body is not present under `src/` (only `handle_init` is
implemented), so consumption is modelled from the spec and settled against
the pieces that are in the source (`License`, `create_user_subscription`). -/

/-- Result of a `consume` call (spec §4.3). -/
inductive ConsumeResult
  | success (subName : String)
  | notFound
  | alreadyUsed
  | keyBanned
  | noSubForLevel
deriving DecidableEq

/-- The license ledger plus subscription tracker state `consume` acts on. -/
structure LedgerState where
  licenses : List License
  plans : List Subscription
  grants : List UserSubscription
deriving DecidableEq

/-- Lookup filter for `(application, key)` (their pair is unique). -/
def licMatches (application : Nat) (key : String) (l : License) : Bool :=
  l.application == application && l.key == key

/-- Modelled from the spec: `consume(application, key, binding_identity)`
(spec §4.3) — the `license` redemption handler is absent from `src/`.
"looks up `(application, key)`; fails `NotFound` if absent, `AlreadyUsed`
if status is USED, `Banned` if status is BANNED.  On success: atomically
sets status→USED, `used_at`=now, `used_by`=binding_identity, and triggers
Subscription Tracker to grant an entitlement" via the source's
`create_user_subscription`; the status transition and the grant form one
transaction, so when the grant fails the license row is left untouched. -/
def consume (st : LedgerState) (application : Nat) (key : String)
    (binding : String) (now : Int) : Except String (ConsumeResult × LedgerState) :=
  match st.licenses.find? (licMatches application key) with
  | none => .ok (.notFound, st)
  | some lic =>
    match lic.status with
    | .used => .ok (.alreadyUsed, st)
    | .banned => .ok (.keyBanned, st)
    | .not_used =>
      match create_user_subscription st.plans st.grants binding lic application now with
      | .error e => .error e
      | .ok ((false, _), _) => .ok (.noSubForLevel, st)
      | .ok ((true, subName), grants2) =>
        .ok (.success subName,
          { st with
            licenses := st.licenses.map fun l =>
              if licMatches application key l then
                { l with status := .used, used_at := some now, used_by := some binding }
              else l,
            grants := grants2 })

/-! ## Claim theorems -/

/-- **C4** — For every banned license, `unban` restores status USED when
`used_by` is populated and NOT_USED when it is not; and among the modelled
license mutators, `unban` is the only way out of BANNED: `ban` keeps the
license banned and `consume` of a banned key answers `Banned` leaving the
whole ledger unchanged. -/
theorem C4_unban_restores (l : License) (hb : l.status = .banned) :
    ((pyTruthyStr l.used_by = true → l.unban.status = .used) ∧
      (pyTruthyStr l.used_by = false → l.unban.status = .not_used)) ∧
    (∀ reason, (l.ban reason).status = .banned) ∧
    (∀ (st : LedgerState) (application : Nat) (key binding : String) (now : Int),
      st.licenses.find? (licMatches application key) = some l →
      consume st application key binding now = .ok (.keyBanned, st)) := by
  refine ⟨⟨fun ht => ?_, fun hf => ?_⟩, fun reason => rfl, ?_⟩
  · simp [License.unban, ht]
  · simp [License.unban, hf]
  · intro st application key binding now hfind
    unfold consume
    rw [hfind]
    dsimp only
    rw [hb]

/-- Witness for C4 at a concrete banned license with `used_by` populated. -/
theorem C4_unban_restores_witness :
    (License.unban
      { key := "AAAAAA-BBBBBB", application := 7, expires_seconds := 3600,
        status := .banned, used_by := some "user1" : License }).status = .used :=
  (C4_unban_restores _ rfl).1.1 rfl

/-- **C5** — `pause` is a no-op on an already-paused or already-expired
grant; on an active unpaused grant it snapshots `expires_at - now` into
`paused_time_remaining` and sets the pause flag; `unpause` on a paused grant
(with its truthy snapshot) sets `expires_at = now + paused_time_remaining`
and clears the pause state; hence `pause` at `t1` followed by `unpause` at
`t2` restores `expires_at` to exactly `t2 + (expires_at - t1)` — within ±1
second of the snapshotted remaining duration plus elapsed wall time. -/
theorem C5_pause_unpause (s : UserSubscription) (t1 t2 : Int) :
    (s.is_paused = true → s.pause t1 = s) ∧
    (s.is_paused = false → s.expires_at ≤ t1 → s.pause t1 = s) ∧
    (s.is_paused = false → t1 < s.expires_at →
      s.pause t1 = { s with paused_time_remaining := some (s.expires_at - t1),
                            is_paused := true }) ∧
    (∀ d, s.is_paused = true → s.paused_time_remaining = some d → d ≠ 0 →
      s.unpause t2 = { s with expires_at := t2 + d, is_paused := false,
                              paused_time_remaining := none }) ∧
    (s.is_paused = false → t1 < s.expires_at →
      ((s.pause t1).unpause t2).expires_at = t2 + (s.expires_at - t1)) := by
  refine ⟨fun hp => ?_, fun hp hexp => ?_, fun hp hact => ?_, fun d hp hptr hd => ?_,
    fun hp hact => ?_⟩
  · simp [UserSubscription.pause, hp]
  · simp [UserSubscription.pause, UserSubscription.is_active, hp,
      show ¬t1 < s.expires_at from by omega]
  · simp [UserSubscription.pause, UserSubscription.is_active, UserSubscription.time_remaining,
      hp, hact, show ¬s.expires_at ≤ t1 from by omega]
  · simp [UserSubscription.unpause, hp, hptr, pyTruthyDur, hd]
  · have hpause :
        s.pause t1 = { s with is_paused := true,
                              paused_time_remaining := some (s.expires_at - t1) } := by
      simp [UserSubscription.pause, UserSubscription.is_active, UserSubscription.time_remaining,
        hp, hact, show ¬s.expires_at ≤ t1 from by omega]
    rw [hpause]
    simp [UserSubscription.unpause, pyTruthyDur, show s.expires_at - t1 ≠ 0 from by omega]

/-- Witness for C5: a grant expiring at 1000, paused at 400 and unpaused at
700, ends up expiring at 1300. -/
theorem C5_pause_unpause_witness :
    ((UserSubscription.unpause
      (UserSubscription.pause
        { user := "u", subscription := "Pro", application := 7, expires_at := 1000 } 400)
      700)).expires_at = 700 + (1000 - 400) :=
  (C5_pause_unpause
    { user := "u", subscription := "Pro", application := 7, expires_at := 1000 }
    400 700).2.2.2.2 rfl (by decide)

/-- **C6** — `validate_session` rejects (returns `None` for) every session
whose `expires_at ≤ now`, whatever `is_validated` holds; and an expired
session — like one of a different application — is indistinguishable from a
nonexistent one: deleting it from the table does not change any caller's
result. -/
theorem C6_validate_session_expired (sessions : List ApplicationSession) (sid : String)
    (app : Nat) (now : Int) :
    ((∀ s ∈ sessions, s.session_id = sid → s.application = app → s.expires_at ≤ now) →
      validate_session sessions sid app now = none) ∧
    (∀ (pre post : List ApplicationSession) (s : ApplicationSession), s.expires_at ≤ now →
      validate_session (pre ++ s :: post) sid app now = validate_session (pre ++ post) sid app now) ∧
    (∀ (pre post : List ApplicationSession) (s : ApplicationSession), s.application ≠ app →
      validate_session (pre ++ s :: post) sid app now = validate_session (pre ++ post) sid app now) := by
  refine ⟨fun hall => ?_, fun pre post s hexp => ?_, fun pre post s happ => ?_⟩
  · unfold validate_session
    rw [List.find?_eq_none]
    intro s hs
    unfold sessionMatches
    simp only [Bool.and_eq_true, beq_iff_eq, decide_eq_true_eq, not_and]
    intro h1 h2
    have := hall s hs h1.1 h1.2
    omega
  · unfold validate_session
    rw [List.find?_append, List.find?_append, List.find?_cons_of_neg]
    unfold sessionMatches
    simp only [Bool.and_eq_true, beq_iff_eq, decide_eq_true_eq, not_and]
    intro _ _
    omega
  · unfold validate_session
    rw [List.find?_append, List.find?_append, List.find?_cons_of_neg]
    unfold sessionMatches
    simp only [Bool.and_eq_true, beq_iff_eq, decide_eq_true_eq, not_and]
    intro h1
    exact absurd h1.2 happ

/-- Witness for C6: one expired validated session; lookup yields `None`,
and removing the expired row gives the same answer. -/
theorem C6_validate_session_expired_witness :
    validate_session
      [{ session_id := "deadbeef", application := 7, is_validated := true,
         expires_at := 50 : ApplicationSession }] "deadbeef" 7 100 = none :=
  (C6_validate_session_expired _ "deadbeef" 7 100).1 (by decide)

/-- Every character of the generation alphabet is alphanumeric. -/
theorem licenseAlphabet_isAlphanum : ∀ c ∈ licenseAlphabet, c.isAlphanum = true := by decide

theorem genKeyChars_spec (choice : Nat → Char) (h : ∀ j, choice j ∈ licenseAlphabet) :
    ∀ (mask : List Char) (i0 : Nat),
      (genKeyChars choice mask i0).length = mask.length ∧
      (∀ (k : Nat) (c : Char), mask[k]? = some c → c ≠ '*' →
        (genKeyChars choice mask i0)[k]? = some c) ∧
      (∀ k : Nat, mask[k]? = some '*' →
        ∃ r, (genKeyChars choice mask i0)[k]? = some r ∧ r ∈ licenseAlphabet) := by
  intro mask
  induction mask with
  | nil =>
    intro i0
    refine ⟨rfl, ?_, ?_⟩
    · intro k c hk
      simp at hk
    · intro k hk
      simp at hk
  | cons m rest ih =>
    intro i0
    by_cases hm : m = '*'
    · subst hm
      have hunf : genKeyChars choice ('*' :: rest) i0 =
          choice i0 :: genKeyChars choice rest (i0 + 1) := by
        simp [genKeyChars]
      rw [hunf]
      refine ⟨by simp [(ih (i0 + 1)).1], ?_, ?_⟩
      · intro k c hk hne
        rcases k with _ | k
        · simp only [List.getElem?_cons_zero, Option.some.injEq] at hk
          exact absurd hk.symm hne
        · simp only [List.getElem?_cons_succ] at hk ⊢
          exact (ih (i0 + 1)).2.1 k c hk hne
      · intro k hk
        rcases k with _ | k
        · exact ⟨choice i0, by simp, h i0⟩
        · simp only [List.getElem?_cons_succ] at hk ⊢
          exact (ih (i0 + 1)).2.2 k hk
    · have hunf : genKeyChars choice (m :: rest) i0 = m :: genKeyChars choice rest i0 := by
        simp [genKeyChars, hm]
      rw [hunf]
      refine ⟨by simp [(ih i0).1], ?_, ?_⟩
      · intro k c hk hne
        rcases k with _ | k
        · simp only [List.getElem?_cons_zero, Option.some.injEq] at hk ⊢
          exact hk
        · simp only [List.getElem?_cons_succ] at hk ⊢
          exact (ih i0).2.1 k c hk hne
      · intro k hk
        rcases k with _ | k
        · simp only [List.getElem?_cons_zero, Option.some.injEq] at hk
          exact absurd hk hm
        · simp only [List.getElem?_cons_succ] at hk ⊢
          exact (ih i0).2.2 k hk

/-- **C7** — When the draws of `secrets.choice` come from the generation
alphabet (uppercase letters and digits — an alphanumeric set), the generated
key has the mask's length, copies every non-`*` mask character verbatim at
its position, and carries an alphabet (hence alphanumeric) character at
every `*` position. -/
theorem C7_generate_license_key (choice : Nat → Char) (mask : String)
    (h : ∀ j, choice j ∈ licenseAlphabet) :
    (generate_license_key choice mask).length = mask.length ∧
    (∀ (k : Nat) (c : Char), mask.data[k]? = some c → c ≠ '*' →
      (generate_license_key choice mask).data[k]? = some c) ∧
    (∀ k : Nat, mask.data[k]? = some '*' →
      ∃ r, (generate_license_key choice mask).data[k]? = some r ∧
        r ∈ licenseAlphabet ∧ r.isAlphanum = true) := by
  have hspec := genKeyChars_spec choice h mask.data 0
  refine ⟨hspec.1, hspec.2.1, fun k hk => ?_⟩
  rcases hspec.2.2 k hk with ⟨r, hr, hmem⟩
  exact ⟨r, hr, hmem, licenseAlphabet_isAlphanum r hmem⟩

/-- Witness for C7: mask `**-**` with a constant draw stream. -/
theorem C7_generate_license_key_witness :
    (generate_license_key (fun _ => 'A') "**-**").length = "**-**".length :=
  (C7_generate_license_key (fun _ => 'A') "**-**"
    (fun j => by show 'A' ∈ licenseAlphabet; decide)).1

/-- **C8** — `create_user_subscription` fails (and adds no grant) when no
`Subscription` plan of the license's `(application, level)` exists, and on
the unique-plan path creates exactly one `UserSubscription` whose
`expires_at` is `now + license.expires_seconds` and whose `license_key`
provenance is the consumed key. -/
theorem C8_create_user_subscription (plans : List Subscription)
    (grants : List UserSubscription) (user : String) (lic : License) (app : Nat) (now : Int) :
    ((∀ p ∈ plans, planMatches app lic.level p = false) →
      create_user_subscription plans grants user lic app now =
        .ok ((false, "No subscription found for license level"), grants)) ∧
    (∀ p, plans.filter (planMatches app lic.level) = [p] →
      create_user_subscription plans grants user lic app now =
        .ok ((true, p.name),
          grants ++ [{ user := user, subscription := p.name, application := app,
                       expires_at := now + lic.expires_seconds,
                       license_key := some lic.key }])) := by
  constructor
  · intro hnone
    unfold create_user_subscription
    have hfil : plans.filter (planMatches app lic.level) = [] := by
      rw [List.filter_eq_nil_iff]
      intro p hp
      simp [hnone p hp]
    rw [hfil]
  · intro p hfil
    unfold create_user_subscription
    rw [hfil]

/-- Witness for C8: the spec's scenario — key `AAAAAA-BBBBBB`,
`expires_seconds = 3600`, level `"1"`, one matching plan. -/
theorem C8_create_user_subscription_witness :
    create_user_subscription [{ name := "Pro", level := "1", application := 7 }] []
      "user1" { key := "AAAAAA-BBBBBB", application := 7, expires_seconds := 3600 } 7 1000 =
      .ok ((true, "Pro"),
        [{ user := "user1", subscription := "Pro", application := 7,
           expires_at := 1000 + 3600, license_key := some "AAAAAA-BBBBBB" }]) :=
  (C8_create_user_subscription [{ name := "Pro", level := "1", application := 7 }] []
    "user1" { key := "AAAAAA-BBBBBB", application := 7, expires_seconds := 3600 } 7 1000).2
    { name := "Pro", level := "1", application := 7 } (by decide)

/-- Inversion for the successful path of `create_user_subscription`: a
`(True, name)` result means exactly one plan matched and exactly the one new
grant (with `expires_at = now + expires_seconds` and the key as provenance)
was appended. -/
theorem create_user_subscription_ok_true {plans : List Subscription}
    {grants g2 : List UserSubscription} {user : String} {lic : License} {app : Nat}
    {now : Int} {nm : String}
    (h : create_user_subscription plans grants user lic app now = .ok ((true, nm), g2)) :
    ∃ p, plans.filter (planMatches app lic.level) = [p] ∧ nm = p.name ∧
      g2 = grants ++ [{ user := user, subscription := p.name, application := app,
                        expires_at := now + lic.expires_seconds,
                        license_key := some lic.key }] := by
  unfold create_user_subscription at h
  rcases hfil : plans.filter (planMatches app lic.level) with _ | ⟨p, _ | ⟨q, rest⟩⟩ <;>
    rw [hfil] at h
  · simp at h
  · simp only [Except.ok.injEq, Prod.mk.injEq] at h
    obtain ⟨⟨_, hnm⟩, hg⟩ := h
    exact ⟨p, rfl, hnm.symm, hg.symm⟩
  · cases h

/-- `find?` after a conditional in-place update: if the predicate still
accepts updated elements, the found row is the updated one. -/
theorem find?_map_update {α : Type} (p : α → Bool) (f : α → α)
    (hf : ∀ a, p a = true → p (f a) = true) :
    ∀ (l : List α) (a : α), l.find? p = some a →
      (l.map fun x => if p x then f x else x).find? p = some (f a) := by
  intro l
  induction l with
  | nil => intro a ha; cases ha
  | cons x xs ih =>
    intro a ha
    by_cases hx : p x = true
    · rw [List.find?_cons_of_pos _ hx] at ha
      injection ha with hxa
      subst hxa
      rw [List.map_cons, if_pos hx, List.find?_cons_of_pos _ (hf x hx)]
    · rw [List.find?_cons_of_neg _ (by simp [hx])] at ha
      rw [List.map_cons, if_neg (by simp [hx]),
        List.find?_cons_of_neg _ (by simp [hx])]
      exact ih a ha

/-- The in-place update `consume` performs on the redeemed license row. -/
def markUsed (binding : String) (now : Int) (l : License) : License :=
  { l with status := .used, used_at := some now, used_by := some binding }

/-- **C1** — (i) `consume` of a USED license answers `AlreadyUsed` and
leaves the whole ledger (in particular the grant table) unchanged;
(ii) a successful `consume` appends exactly one grant, bound to the caller
and carrying the key as provenance, marks that license USED (`used_at`/
`used_by` set), and a repeated `consume` of the same `(application, key)`
then answers `AlreadyUsed` without any further grant; (iii) atomicity: on
every non-success outcome the state is completely unchanged — a license is
never marked consumed without its grant, and never granted twice. -/
theorem C1_consume_atomic (st : LedgerState) (application : Nat) (key binding : String)
    (now : Int) :
    (∀ lic, st.licenses.find? (licMatches application key) = some lic → lic.status = .used →
      consume st application key binding now = .ok (.alreadyUsed, st)) ∧
    (∀ name st2, consume st application key binding now = .ok (.success name, st2) →
      (st2.grants.length = st.grants.length + 1 ∧
        ∃ g, st2.grants = st.grants ++ [g] ∧ g.license_key = some key ∧ g.user = binding) ∧
      (∃ lic, st.licenses.find? (licMatches application key) = some lic ∧
        lic.status = .not_used ∧
        st2.licenses.find? (licMatches application key) = some (markUsed binding now lic)) ∧
      (∀ (binding2 : String) (now2 : Int),
        consume st2 application key binding2 now2 = .ok (.alreadyUsed, st2))) ∧
    (∀ res st2, consume st application key binding now = .ok (res, st2) →
      (∀ name, res ≠ .success name) → st2 = st) := by
  refine ⟨fun lic hfind hused => ?_, fun name st2 h => ?_, fun res st2 h hns => ?_⟩
  · unfold consume
    rw [hfind]
    dsimp only
    rw [hused]
  · unfold consume at h
    rcases hfind : st.licenses.find? (licMatches application key) with _ | lic <;>
      rw [hfind] at h
    · cases h
    · dsimp only at h
      rcases hst : lic.status with _ | _ | _ <;> rw [hst] at h
      · rcases hcr : create_user_subscription st.plans st.grants binding lic application now
          with e | ⟨⟨b, nm⟩, g2⟩ <;> rw [hcr] at h
        · cases h
        · rcases b with _ | _
          · cases h
          · simp only [Except.ok.injEq, Prod.mk.injEq, ConsumeResult.success.injEq] at h
            obtain ⟨hname, hst2⟩ := h
            rcases create_user_subscription_ok_true hcr with ⟨p, hfil, hnm, hg2⟩
            have hkey : lic.key = key := by
              have hm := List.find?_some hfind
              unfold licMatches at hm
              simp only [Bool.and_eq_true, beq_iff_eq] at hm
              exact hm.2
            have hgrants : st2.grants =
                st.grants ++ [{ user := binding, subscription := p.name,
                                application := application,
                                expires_at := now + lic.expires_seconds,
                                license_key := some lic.key }] := by
              rw [← hst2]
              exact hg2
            have hfindU : st2.licenses.find? (licMatches application key) =
                some (markUsed binding now lic) := by
              rw [← hst2]
              exact find?_map_update (licMatches application key) (markUsed binding now)
                (fun a ha => ha) st.licenses lic hfind
            refine ⟨⟨by rw [hgrants]; simp, ?_⟩, ⟨lic, rfl, hst, hfindU⟩, ?_⟩
            · refine ⟨_, hgrants, ?_, rfl⟩
              dsimp only
              rw [hkey]
            · intro binding2 now2
              unfold consume
              rw [hfindU]
              rfl
      · cases h
      · cases h
  · unfold consume at h
    rcases hfind : st.licenses.find? (licMatches application key) with _ | lic <;>
      rw [hfind] at h
    · cases h
      rfl
    · dsimp only at h
      rcases hst : lic.status with _ | _ | _ <;> rw [hst] at h
      · rcases hcr : create_user_subscription st.plans st.grants binding lic application now
          with e | ⟨⟨b, nm⟩, g2⟩ <;> rw [hcr] at h
        · cases h
        · rcases b with _ | _
          · cases h
            rfl
          · exfalso
            simp only [Except.ok.injEq, Prod.mk.injEq] at h
            exact hns nm (h.1.symm ▸ rfl)
      · cases h
        rfl
      · cases h
        rfl

/-- A USED license row for the C1 witness. -/
def licUsedW : License :=
  { key := "AAAAAA-BBBBBB", application := 7, expires_seconds := 3600,
    status := .used, used_at := some 50, used_by := some "user1" }

/-- A ledger in which `AAAAAA-BBBBBB` has already been consumed once. -/
def stW : LedgerState :=
  { licenses := [licUsedW],
    plans := [{ name := "Pro", level := "1", application := 7 }],
    grants := [{ user := "user1", subscription := "Pro", application := 7,
                 expires_at := 3650, license_key := some "AAAAAA-BBBBBB" }] }

/-- Witness for C1: a second `consume` of the already-used `AAAAAA-BBBBBB`
answers `AlreadyUsed` with the ledger (grants included) unchanged. -/
theorem C1_consume_atomic_witness :
    consume stW 7 "AAAAAA-BBBBBB" "user2" 100 = .ok (.alreadyUsed, stW) :=
  (C1_consume_atomic stW 7 "AAAAAA-BBBBBB" "user2" 100).1 licUsedW (by decide) rfl

/-- **C9 (amended)** — `handle_init`'s prelude rejects a banned, disabled,
or paused application before any operation-specific logic runs (the session
table is returned unchanged), checking banned first, then disabled, then
paused; the disabled and paused rejections each carry their own
tenant-configured message (`app_disabled_msg` / `paused_app_msg`), while the
banned rejection carries a fixed platform-wide message independent of the
tenant's settings. -/
theorem C9_prelude_rejections (apps : List Application) (sessions : List ApplicationSession)
    (req : ApiRequest) (ip : String) (vpn : String → Bool) (whitelist : List (Nat × String))
    (now : Int) (freshId : String) (app : Application)
    (ho : pyTruthyStr req.ownerid = true) (hn : pyTruthyStr req.name = true)
    (hlen : (req.ownerid.getD "").length = 10)
    (hget : get_application apps (req.ownerid.getD "") (req.name.getD "") = some app) :
    (app.is_banned = true →
      handle_init apps sessions req ip vpn whitelist now freshId =
        (.json false "This application has been banned from HexAUTH for violating terms." 400,
         sessions)) ∧
    (app.is_banned = false → app.is_enabled = false →
      handle_init apps sessions req ip vpn whitelist now freshId =
        (.json false app.settings.app_disabled_msg 400, sessions)) ∧
    (app.is_banned = false → app.is_enabled = true → app.is_paused = true →
      handle_init apps sessions req ip vpn whitelist now freshId =
        (.json false app.settings.paused_app_msg 400, sessions)) := by
  have hval : validate_application apps req =
      (if app.is_banned then
        Except.error (.json false
          "This application has been banned from HexAUTH for violating terms." 400)
      else Except.ok app) := by
    unfold validate_application
    rw [ho, hn, hlen]
    simp only [Bool.not_true]
    rw [if_neg (by simp), if_neg (by simp), if_neg (by simp), hget]
  refine ⟨fun hb => ?_, fun hb he => ?_, fun hb he hp => ?_⟩
  · unfold handle_init
    rw [hval, if_pos hb]
  · unfold handle_init
    rw [hval, if_neg (by simp [hb])]
    dsimp only
    rw [he]
    simp
  · unfold handle_init
    rw [hval, if_neg (by simp [hb])]
    dsimp only
    rw [he]
    simp [hp]

/-- A banned application whose tenant configured distinctive custom
messages, for the C9 falsification and witness. -/
def bannedAppW : Application :=
  { id := 1, name := "myapp", owner_id := "OWNERID001", is_banned := true,
    settings := { app_disabled_msg := "custom disabled", paused_app_msg := "custom paused",
                  hash_check_fail_msg := "custom hash", vpn_blocked_msg := "custom vpn" } }

/-- Counterexample to C9 as stated: the banned rejection does **not** carry
a tenant-configured message — for a banned application whose tenant set
every configurable message to a custom string, `handle_init` still answers
with the fixed platform text, which is none of the tenant's messages. -/
theorem C9_counterexample :
    (handle_init [bannedAppW] [] { ownerid := some "OWNERID001", name := some "myapp" }
        "1.2.3.4" (fun _ => false) [] 0 "sid1").1 =
      .json false "This application has been banned from HexAUTH for violating terms." 400 ∧
    "This application has been banned from HexAUTH for violating terms." ∉
      [bannedAppW.settings.app_disabled_msg, bannedAppW.settings.paused_app_msg,
       bannedAppW.settings.hash_check_fail_msg, bannedAppW.settings.vpn_blocked_msg] := by
  constructor
  · decide
  · decide

/-- Witness for the amended C9 at the concrete banned application. -/
theorem C9_prelude_rejections_witness :
    handle_init [bannedAppW] [] { ownerid := some "OWNERID001", name := some "myapp" }
        "1.2.3.4" (fun _ => false) [] 0 "sid1" =
      (.json false "This application has been banned from HexAUTH for violating terms." 400,
       []) :=
  (C9_prelude_rejections [bannedAppW] [] _ "1.2.3.4" (fun _ => false) [] 0 "sid1" bannedAppW
    (by decide) (by decide) (by decide) (by decide)).1 rfl

/-- **C2 (amended)** — For every plaintext whose UTF-8 byte length is
congruent to its character count modulo 16 (in particular every plaintext
of one-byte characters), and for the cipher parameters derived from any key
and IV strings — an AES block permutation `E` on 16-byte byte blocks with
inverse `D`, and a hashed 16-byte IV — `encrypt_data` produces a hex
ciphertext that `decrypt_data` maps back to the original plaintext
(encryption pads with the pad-length byte repeated, decryption strips that
padding). -/
theorem C2_encrypt_decrypt_roundtrip (E D : List Nat → List Nat) (ivh : List Nat)
    (data : String)
    (hD : ∀ b, b.length = 16 → (∀ x ∈ b, x < 256) → D (E b) = b)
    (hE : ∀ b, b.length = 16 → (∀ x ∈ b, x < 256) → (E b).length = 16 ∧ ∀ x ∈ E b, x < 256)
    (hivL : ivh.length = 16) (hivB : ∀ x ∈ ivh, x < 256)
    (hcong : (utf8Encode data).length % 16 = data.length % 16) :
    ∃ ct, encrypt_data E ivh data = .ok ct ∧ decrypt_data D ivh ct = some data :=
  ⟨_, encrypt_data_eq_ok E ivh data hcong,
    decrypt_data_of_encrypt E D ivh data hD hE hivL hivB hcong⟩

/-- Counterexample to C2 as stated (*every* plaintext): for the one-character
plaintext U+0100 (two UTF-8 bytes, so the character-count padding leaves 17
bytes), encryption raises `ValueError` before any ciphertext exists, so the
round trip cannot return the plaintext. -/
theorem C2_roundtrip_counterexample :
    encrypt_data (fun b => b) (List.replicate 16 0) "Ā" =
      .error
        "ValueError: The length of the provided data is not a multiple of the block length" := by
  rfl

/-- Witness for the amended C2 with plaintext `"hello"` and the identity
block permutation. -/
theorem C2_encrypt_decrypt_roundtrip_witness :
    ∃ ct, encrypt_data (fun b => b) (List.replicate 16 0) "hello" = .ok ct ∧
      decrypt_data (fun b => b) (List.replicate 16 0) ct = some "hello" :=
  C2_encrypt_decrypt_roundtrip (fun b => b) (fun b => b) (List.replicate 16 0) "hello"
    (fun _ _ _ => rfl) (fun _ hl hb => ⟨hl, hb⟩) (by decide) (by decide) (by decide)

/-- `decrypt_data` is the `try/except`-catch of the fallible body: errors
become `None`, successes their plaintext. -/
theorem decrypt_data_eq_body (D : List Nat → List Nat) (ivh : List Nat) (ed : String) :
    decrypt_data D ivh ed =
      (match decrypt_body D ivh ed with
       | .ok s => some s
       | .error _ => none) := by
  unfold decrypt_data decrypt_body
  cases hu : unhexlify ed with
  | none => rfl
  | some bytes =>
    dsimp only
    by_cases hlen : bytes.length % 16 = 0
    · rw [if_pos hlen, if_pos hlen]
      cases hg : (cbcDec D ivh (chunk16 bytes)).flatten.getLast? with
      | none => rfl
      | some P =>
        dsimp only
        cases utf8Decode (pyTailSlice P (cbcDec D ivh (chunk16 bytes)).flatten) with
        | none => rfl
        | some s => rfl
    · rw [if_neg hlen, if_neg hlen]

/-- **C3** — No failure escapes `decrypt_data`: whenever the body of the
function (modelled without its `try/except` as `decrypt_body`, whose
`.error`s are the exceptions Python would raise on malformed hex, wrong
block length, empty plaintext or undecodable bytes) raises, `decrypt_data`
returns the decode-failure value `none`; and a successful body yields its
plaintext. -/
theorem C3_decrypt_never_raises (D : List Nat → List Nat) (ivh : List Nat) (ed : String) :
    (∀ e, decrypt_body D ivh ed = .error e → decrypt_data D ivh ed = none) ∧
    (∀ s, decrypt_body D ivh ed = .ok s → decrypt_data D ivh ed = some s) := by
  constructor
  · intro e he
    rw [decrypt_data_eq_body, he]
  · intro s hs
    rw [decrypt_data_eq_body, hs]

/-- Witness for C3: on the malformed hex input `"zz"` the body raises
`binascii.Error` and `decrypt_data` returns `none`. -/
theorem C3_decrypt_never_raises_witness :
    decrypt_body (fun b => b) (List.replicate 16 0) "zz" =
      .error "binascii.Error: decoding failed" ∧
    decrypt_data (fun b => b) (List.replicate 16 0) "zz" = none :=
  ⟨by rfl, (C3_decrypt_never_raises (fun b => b) (List.replicate 16 0) "zz").1
    "binascii.Error: decoding failed" (by rfl)⟩

/-- **C10** — `encrypt_data` is not total: the padding length is computed
from the plaintext's character count while encryption consumes its UTF-8
bytes, so for the non-ASCII plaintext U+0100 the padded byte length (17) is
not a multiple of 16 and the function raises `ValueError` for every key and
IV; while for every plaintext whose UTF-8 encoding is one byte per
character it returns a hex ciphertext normally. -/
theorem C10_encrypt_partiality :
    (∀ (E : List Nat → List Nat) (ivh : List Nat),
      encrypt_data E ivh "Ā" =
        .error
          "ValueError: The length of the provided data is not a multiple of the block length") ∧
    (∀ (E : List Nat → List Nat) (ivh : List Nat) (data : String),
      (∀ c ∈ data.data, c.toNat < 128) → ∃ ct, encrypt_data E ivh data = .ok ct) := by
  constructor
  · intro E ivh
    unfold encrypt_data
    dsimp only
    rw [if_neg (by decide)]
  · intro E ivh data h
    have hcong : (utf8Encode data).length % 16 = data.length % 16 := by
      rw [utf8Encode_length_ascii data h]
    exact ⟨_, encrypt_data_eq_ok E ivh data hcong⟩

/-- Witness for C10: U+0100 raises; the all-ASCII `"hi"` encrypts. -/
theorem C10_encrypt_partiality_witness :
    encrypt_data (fun b => b) (List.replicate 16 0) "Ā" =
      .error
        "ValueError: The length of the provided data is not a multiple of the block length" ∧
    ∃ ct, encrypt_data (fun b => b) (List.replicate 16 0) "hi" = .ok ct :=
  ⟨C10_encrypt_partiality.1 _ _, C10_encrypt_partiality.2 _ _ "hi" (by decide)⟩

end HexAuth
